import Mathlib

/-!
# Verification of the resumable book crawler (`scripts/scrape_books.py`)

Shallow embedding of the crawler's parsing functions (`parse_book_detail`),
the retrying fetch wrapper (`get_soup`) and the crawl driver (`run`).

The network and the HTML documents it returns are modelled by an `Upstream`
oracle: the category index, the listing pages of each category (with the
product URLs the code extracts from them, already resolved by `urljoin`),
and the detail document behind each product URL.  File writes and sleeps
performed by the driver are recorded in an event trace.
-/

namespace Scrape

/-! ## Records -/

/-- One scraped book record, with the fields written to the CSV
(`fieldnames` in the source). -/
structure Row where
  id : Nat
  title : String
  price : ℚ
  rating : Nat
  availability : Nat
  category : String
  image_url : String
  product_page_url : String
deriving Repr, DecidableEq

/-! ## Page parser (`parse_book_detail`) -/

/-- The source's `RATING_MAP = {"One": 1, "Two": 2, "Three": 3, "Four": 4, "Five": 5}`. -/
def RATING_MAP (s : String) : Option Nat :=
  if s = "One" then some 1
  else if s = "Two" then some 2
  else if s = "Three" then some 3
  else if s = "Four" then some 4
  else if s = "Five" then some 5
  else none

/-- Maximal run of leading digits of a character list, and the rest. -/
def leadingDigits : List Char → List Char × List Char
  | [] => ([], [])
  | c :: cs =>
    if c.isDigit then
      let p := leadingDigits cs
      (c :: p.1, p.2)
    else ([], c :: cs)

/-- Numeric value of a digit string. -/
def natOfDigits (ds : List Char) : Nat :=
  ds.foldl (fun a c => 10 * a + (c.toNat - 48)) 0

/-- The first match of the regex `(\d+(?:\.\d+)?)`: integer digits and
(possibly empty) fractional digits of the leftmost numeric token. -/
def firstNumToken : List Char → Option (List Char × List Char)
  | [] => none
  | c :: cs =>
    if c.isDigit then
      let p := leadingDigits (c :: cs)
      match p.2 with
      | '.' :: c2 :: r2 =>
        if c2.isDigit then some (p.1, (leadingDigits (c2 :: r2)).1)
        else some (p.1, [])
      | _ => some (p.1, [])
    else firstNumToken cs

/-- The first match of the regex `(\d+)`: the leftmost maximal digit run. -/
def firstIntToken : List Char → Option (List Char)
  | [] => none
  | c :: cs =>
    if c.isDigit then some (leadingDigits (c :: cs)).1
    else firstIntToken cs

/-- Rational value of a token with integer part `i` and fractional part `f`. -/
def ratOfToken (i f : List Char) : ℚ :=
  (natOfDigits i : ℚ) + (natOfDigits f : ℚ) / ((10 : ℚ) ^ f.length)

/-- Price extraction: `price_text.replace(",", ".")` followed by
`re.search(r"(\d+(?:\.\d+)?)", ...)`; `float(match)` on a match, `0.0`
otherwise. -/
def parse_price (price_text : String) : ℚ :=
  let t := price_text.data.map (fun c => if c = ',' then '.' else c)
  match firstNumToken t with
  | some p => ratOfToken p.1 p.2
  | none => 0

/-- Rating extraction: `next((c for c in rating_class if c in RATING_MAP), "One")` then
`RATING_MAP.get(rating_word, 1)`. -/
def parse_rating (rating_class : List String) : Nat :=
  let rating_word := (rating_class.find? (fun c => (RATING_MAP c).isSome)).getD "One"
  (RATING_MAP rating_word).getD 1

/-- Availability extraction: `int(m.group(1))` for the first integer token of the availability
phrase, `0` when there is none. -/
def parse_availability (avail_text : String) : Nat :=
  match firstIntToken avail_text.data with
  | some ds => natOfDigits ds
  | none => 0

/-- Category extraction: `breadcrumb[-2]` when the breadcrumb has at least two entries,
`"Unknown"` otherwise. -/
def parse_category (breadcrumb : List String) : String :=
  if 2 ≤ breadcrumb.length then breadcrumb.getD (breadcrumb.length - 2) "Unknown"
  else "Unknown"

/-- Simplified model of `urllib.parse.urljoin`, used only to resolve the
image reference against the page URL (no claim inspects its internals):
an already absolute reference is kept, a relative one is appended to the
base with its last path segment dropped. -/
def urljoin (base rel : String) : String :=
  if rel.startsWith "http://" || rel.startsWith "https://" then rel
  else
    let segs := base.splitOn "/"
    String.intercalate "/" (segs.dropLast) ++ "/" ++ rel

/-- A detail document, reduced to the items `parse_book_detail` selects
from the soup.  `none` means the corresponding anchor element is absent,
in which case the Python code raises (`get_text`/`[...]` on `None`). -/
structure DetailDoc where
  title : Option String
  price_text : Option String
  rating_class : Option (List String)
  avail_text : Option String
  breadcrumb : List String
  img_src : Option String

/-- The pure part of `parse_book_detail` on an already fetched document: `none` models the
exception raised when a required anchor is structurally absent.  The `id`
field is a placeholder `0`; the driver overwrites it. -/
def parse_book_detail (url : String) (d : DetailDoc) : Option Row := do
  let title ← d.title
  let pt ← d.price_text
  let rc ← d.rating_class
  let av ← d.avail_text
  let img ← d.img_src
  some { id := 0
         title := title
         price := parse_price pt
         rating := parse_rating rc
         availability := parse_availability av
         category := parse_category d.breadcrumb
         image_url := urljoin url img
         product_page_url := url }

/-! ## `get_soup`: bounded retry loop with linear backoff

The network is an oracle `fetch : Nat → Except String α` giving the
outcome of each attempt (for one fixed URL).  The loop
`for attempt in range(retries + 1)` is driven by the remaining fuel
`retries - attempt`.  The result records the returned/raised value, the
number of attempts made, and the list of backoff sleeps performed. -/

/-- Loop body of `get_soup`, at attempt number `attempt` with
`fuel = retries - attempt` further attempts allowed after this one
(so `fuel = 0` exactly when `attempt < retries` fails and the exception
is re-raised). -/
def get_soup_go (fetch : Nat → Except String α) (backoff : ℚ) :
    Nat → Nat → Except String α × Nat × List ℚ
  | attempt, 0 =>
    match fetch attempt with
    | .ok d => (.ok d, 1, [])
    | .error e => (.error e, 1, [])
  | attempt, fuel + 1 =>
    match fetch attempt with
    | .ok d => (.ok d, 1, [])
    | .error _ =>
      let r := get_soup_go fetch backoff (attempt + 1) fuel
      (r.1, r.2.1 + 1, backoff * ((attempt : ℚ) + 1) :: r.2.2)

/-- The whole of `get_soup(url, session, retries, verbose, backoff)`, with the
attempts' outcomes supplied by `fetch`. -/
def get_soup (fetch : Nat → Except String α) (retries : Nat) (backoff : ℚ) :
    Except String α × Nat × List ℚ :=
  get_soup_go fetch backoff 0 retries

/-! ## Crawl driver (`run`) -/

/-- Events observable on the outside of a run: full overwrites of the
output file (with the in-memory rows written) and sleeps (politeness
delay, backoff after a failed category). -/
inductive Event where
  | write (rows : List Row)
  | sleep (secs : ℚ)
deriving Repr, DecidableEq

/-- Is the event a file write? -/
def Event.isWrite : Event → Bool
  | .write _ => true
  | .sleep _ => false

/-- The upstream site, as the driver observes it.
`categories` is the outcome of `get_all_categories` (name, url pairs);
`catPages c` lists, for category URL `c`, the product-URL lists of the
listing pages that are reached and parsed, paired with `some e` when the
category then fails with exception `e` (a failure inside
`iterate_category_pages` yields `([], some e)`); `detailDoc u` is the
outcome of fetching the detail page at product URL `u`. -/
structure Upstream where
  categories : Except String (List (String × String))
  catPages : String → List (List String) × Option String
  detailDoc : String → Except String DetailDoc

/-- The call `parse_book_detail(product_url, ...)` as the driver makes it: a fetch
failure or a missing anchor both surface as `none` (an exception caught by
the per-item handler). -/
def fetch_detail (w : Upstream) (url : String) : Option Row :=
  match w.detailDoc url with
  | .error _ => none
  | .ok d => parse_book_detail url d

/-- The parameters of `run` that affect the embedded behaviour.
`resume_rows` are the records loaded from the existing output file
(`[]` when `resume` is false or the file does not exist). -/
structure Config where
  polite_delay : ℚ
  limit : Option Nat
  checkpoint_every : Nat
  resume_rows : List Row

/-- Mutable session state of `run`. -/
structure St where
  rows : List Row
  success : Nat
  fail : Nat
  book_id : Nat
  seen : List String
  trace : List Event
deriving Repr, DecidableEq

/-- The check `limit is not None and success >= limit`. -/
def limitReached : Option Nat → Nat → Bool
  | none, _ => false
  | some l, s => l ≤ s

/-- The resume block: load prior rows, mark their URLs seen, advance
`book_id` by `book_id = max(book_id, int(row["id"]) + 1)` starting at 1. -/
def loadResume (rows : List Row) : St :=
  { rows := rows
    success := 0
    fail := 0
    book_id := rows.foldl (fun b r => max b (r.id + 1)) 1
    seen := rows.map (fun r => r.product_page_url)
    trace := [] }

/-- Body of the per-product loop.  A URL already seen is skipped
(`continue`, before the politeness sleep).  Otherwise the detail page is
fetched and parsed; on success the record gets the next id and is
appended, the URL is marked seen, the success counter advances, a
checkpoint is written when `checkpoint_every` is nonzero and divides the
success count — and when the limit is reached, the `raise StopIteration`
is caught by the same per-item `except Exception` handler
(`StopIteration` subclasses `Exception`), so it only increments the
failure counter.  A parse/fetch failure increments the failure counter.
Either way the politeness sleep follows. -/
def procItem (cfg : Config) (w : Upstream) (st : St) (url : String) : St :=
  if url ∈ st.seen then st
  else
    match fetch_detail w url with
    | none =>
      { st with fail := st.fail + 1
                trace := st.trace ++ [.sleep cfg.polite_delay] }
    | some b =>
      let row := { b with id := st.book_id }
      let rows := st.rows ++ [row]
      let success := st.success + 1
      let st1 : St :=
        { st with rows := rows
                  success := success
                  seen := st.seen ++ [url]
                  book_id := st.book_id + 1 }
      let st2 : St :=
        if cfg.checkpoint_every ≠ 0 ∧ success % cfg.checkpoint_every = 0 then
          { st1 with trace := st1.trace ++ [.write rows] }
        else st1
      let st3 : St :=
        if limitReached cfg.limit success then
          { st2 with fail := st2.fail + 1 }
        else st2
      { st3 with trace := st3.trace ++ [.sleep cfg.polite_delay] }

/-- One listing page: process its product URLs in order. -/
def procPage (cfg : Config) (w : Upstream) (st : St) (urls : List String) : St :=
  urls.foldl (procItem cfg w) st

/-- One category: process the listing pages that are reached; when the
category then fails, the handler logs a warning and sleeps 5 seconds
before the run moves on. -/
def procCategory (cfg : Config) (w : Upstream) (st : St) (cat : String × String) : St :=
  let pcs := w.catPages cat.2
  let st' := pcs.1.foldl (procPage cfg w) st
  match pcs.2 with
  | some _ => { st' with trace := st'.trace ++ [.sleep 5] }
  | none => st'

/-- The category loop: after each category, `break` out when the limit
has been reached. -/
def procCategories (cfg : Config) (w : Upstream) : St → List (String × String) → St
  | st, [] => st
  | st, c :: cs =>
    let st' := procCategory cfg w st c
    if limitReached cfg.limit st'.success then st'
    else procCategories cfg w st' cs

/-- The driver `run`: load resume state, fetch the category index (a failure here
propagates and aborts the run), process each category, and finish with
the final full overwrite of the output file. -/
def run (cfg : Config) (w : Upstream) : Except String St :=
  match w.categories with
  | .error e => .error e
  | .ok cats =>
    let st := procCategories cfg w (loadResume cfg.resume_rows) cats
    .ok { st with trace := st.trace ++ [.write st.rows] }

/-- CSV column order (`fieldnames` in the source). -/
def fieldnames : List String :=
  ["id", "title", "price", "rating", "availability",
   "category", "image_url", "product_page_url"]

/-- One CSV data row, cells in `fieldnames` order. -/
def renderRow (r : Row) : List String :=
  [toString r.id, r.title, toString r.price, toString r.rating,
   toString r.availability, r.category, r.image_url, r.product_page_url]

/-- The content a `Event.write rows` leaves in the output file: the
header row followed by one row per record, in order. -/
def renderFile (rows : List Row) : List (List String) :=
  fieldnames :: rows.map renderRow

/-- The write events of a trace. -/
def filtWr (t : List Event) : List Event :=
  t.filter Event.isWrite

/-- The value `max(existing ids)` of a list of rows (`0` for the empty list). -/
def maxId (rows : List Row) : Nat :=
  rows.foldl (fun m r => max m r.id) 0

/-! ## Concrete fixtures used by witnesses and counterexamples -/

/-- A well-formed detail document. -/
def docW : DetailDoc :=
  { title := some "T", price_text := some "£9.99",
    rating_class := some ["star-rating", "Three"],
    avail_text := some "In stock (5 available)",
    breadcrumb := ["Home", "Books", "A", "T"],
    img_src := some "x.jpg" }

/-- A prior-run row used in resume fixtures. -/
def rowW : Row :=
  { id := 3, title := "T", price := 999 / 100, rating := 3, availability := 5,
    category := "A", image_url := "x.jpg", product_page_url := "u1" }

/-- Upstream with two categories whose listings share a product URL. -/
def wTwoCats : Upstream :=
  { categories := .ok [("A", "catA"), ("B", "catB")]
    catPages := fun c => if c = "catA" then ([["u1", "u2"]], none) else ([["u2", "u3"]], none)
    detailDoc := fun _ => .ok docW }

/-- Upstream that is entirely unreachable. -/
def wFail : Upstream :=
  { categories := .error "conn refused", catPages := fun _ => ([], some "conn refused"),
    detailDoc := fun _ => .error "conn refused" }

/-- Upstream with one category, one listing page, two parseable products. -/
def wLimit : Upstream :=
  { categories := .ok [("A", "catA")]
    catPages := fun _ => ([["u1", "u2"]], none)
    detailDoc := fun _ => .ok docW }

def cfgFresh : Config :=
  { polite_delay := 0, limit := none, checkpoint_every := 0, resume_rows := [] }

def cfgResume : Config :=
  { polite_delay := 0, limit := none, checkpoint_every := 0, resume_rows := [rowW] }

def cfgCkpt : Config :=
  { polite_delay := 0, limit := none, checkpoint_every := 1, resume_rows := [] }

def cfgLimit : Config :=
  { polite_delay := 0, limit := some 1, checkpoint_every := 0, resume_rows := [] }

def stFresh : St := (run cfgFresh wTwoCats).toOption.getD (loadResume [])

def stResume : St := (run cfgResume wTwoCats).toOption.getD (loadResume [])

def stCkpt : St := (run cfgCkpt wTwoCats).toOption.getD (loadResume [])

/-- Invariant behind the dedup claim: row URLs are duplicate-free and
each row's URL is in the seen set. -/
def DedupInv (s : St) : Prop :=
  (s.rows.map (fun r => r.product_page_url)).Nodup ∧
    ∀ r ∈ s.rows, r.product_page_url ∈ s.seen

/-- Invariant behind the no-checkpoint claim: no write event yet. -/
def NoWriteInv (s : St) : Prop := filtWr s.trace = []

/-- Invariant behind the checkpoint-consistency claim: every write so
far is a prefix of the current rows. -/
def WritePrefixInv (s : St) : Prop :=
  ∀ rs, Event.write rs ∈ s.trace → ∃ t, rs ++ t = s.rows

/-- Invariant behind the id-monotonicity claim, relative to the resume
rows `res` and the starting id `b0`: the rows are the resume rows plus
the newly collected ones, whose ids are consecutive from `b0`. -/
def IdInv (res : List Row) (b0 : Nat) (s : St) : Prop :=
  ∃ new, s.rows = res ++ new ∧
    new.map (fun r => r.id) = List.range' b0 new.length ∧
    s.book_id = b0 + new.length

/-- The seen set is exactly the set of row URLs (holds from `loadResume`
onwards). -/
def SeenEqInv (s : St) : Prop :=
  s.seen = s.rows.map (fun r => r.product_page_url)

/-- A URL is collectable: its detail page fetches and parses. -/
def okUrl (w : Upstream) (u : String) : Prop :=
  ∃ b, fetch_detail w u = some b

/-! ## Helper lemmas -/

theorem firstIntToken_eq_none (l : List Char) (h : ∀ c ∈ l, c.isDigit = false) :
    firstIntToken l = none := by
  induction l with
  | nil => rfl
  | cons c cs ih =>
    have hc : c.isDigit = false := h c (List.mem_cons_self c cs)
    simp only [firstIntToken, hc, Bool.false_eq_true, if_false]
    exact ih fun x hx => h x (List.mem_cons_of_mem c hx)

theorem firstNumToken_eq_none (l : List Char) (h : ∀ c ∈ l, c.isDigit = false) :
    firstNumToken l = none := by
  induction l with
  | nil => rfl
  | cons c cs ih =>
    have hc : c.isDigit = false := h c (List.mem_cons_self c cs)
    simp only [firstNumToken, hc, Bool.false_eq_true, if_false]
    exact ih fun x hx => h x (List.mem_cons_of_mem c hx)

theorem no_digit_commaDot (l : List Char) (h : ∀ c ∈ l, c.isDigit = false) :
    ∀ c ∈ l.map (fun c => if c = ',' then '.' else c), c.isDigit = false := by
  intro c hc
  rcases List.mem_map.1 hc with ⟨a, ha, rfl⟩
  by_cases h' : a = ','
  · simp only [h', if_pos rfl]; decide
  · simpa only [if_neg h'] using h a ha

/-! ## Claims about the parser -/

/-- C6: for every detail document accepted by `parse_book_detail`: a
rating class with no recognized rating word yields rating 1, an
availability phrase with no integer token yields availability 0, a
breadcrumb with fewer than two entries yields category "Unknown", and
otherwise the category is the second-to-last breadcrumb entry. -/
theorem C6_parser_defaults (url t pt av img : String) (rc bc : List String) :
    ∃ r, parse_book_detail url
        { title := some t, price_text := some pt, rating_class := some rc,
          avail_text := some av, breadcrumb := bc, img_src := some img } = some r ∧
      ((∀ c ∈ rc, RATING_MAP c = none) → r.rating = 1) ∧
      ((∀ c ∈ av.data, c.isDigit = false) → r.availability = 0) ∧
      (bc.length < 2 → r.category = "Unknown") ∧
      (2 ≤ bc.length → r.category = bc.getD (bc.length - 2) "Unknown") := by
  refine ⟨_, rfl, ?_, ?_, ?_, ?_⟩
  · intro h
    show parse_rating rc = 1
    unfold parse_rating
    have hf : rc.find? (fun c => (RATING_MAP c).isSome) = none := by
      rw [List.find?_eq_none]
      intro x hx
      simp [h x hx]
    rw [hf]
    rfl
  · intro h
    show parse_availability av = 0
    unfold parse_availability
    rw [firstIntToken_eq_none av.data h]
  · intro h
    show parse_category bc = "Unknown"
    unfold parse_category
    rw [if_neg (by omega)]
  · intro h
    show parse_category bc = bc.getD (bc.length - 2) "Unknown"
    unfold parse_category
    rw [if_pos h]

/-- Witness for C6 on a concrete document. -/
theorem C6_parser_defaults_witness :
    (∀ c ∈ ["star-rating", "Zero"], RATING_MAP c = none) ∧
    (∀ c ∈ "In stock".data, c.isDigit = false) ∧
    ∃ r, parse_book_detail "https://books.toscrape.com/catalogue/x.html"
        { title := some "T", price_text := some "£9.99",
          rating_class := some ["star-rating", "Zero"],
          avail_text := some "In stock", breadcrumb := ["Home"],
          img_src := some "x.jpg" } = some r ∧
      r.rating = 1 ∧ r.availability = 0 ∧ r.category = "Unknown" := by
  refine ⟨by decide, by decide, ?_⟩
  obtain ⟨r, hr, h1, h2, h3, _⟩ :=
    C6_parser_defaults "https://books.toscrape.com/catalogue/x.html" "T" "£9.99"
      "In stock" "x.jpg" ["star-rating", "Zero"] ["Home"]
  exact ⟨r, hr, h1 (by decide), h2 (by decide), h3 (by decide)⟩

/-- C9: a price element whose text contains no numeric token makes
`parse_book_detail` return a record (it does not fail) with price 0.0. -/
theorem C9_price_default (url t pt av img : String) (rc bc : List String)
    (h : ∀ c ∈ pt.data, c.isDigit = false) :
    ∃ r, parse_book_detail url
        { title := some t, price_text := some pt, rating_class := some rc,
          avail_text := some av, breadcrumb := bc, img_src := some img } = some r ∧
      r.price = 0 := by
  refine ⟨_, rfl, ?_⟩
  show parse_price pt = 0
  unfold parse_price
  simp only [firstNumToken_eq_none _ (no_digit_commaDot pt.data h)]

/-- Witness for C9 on a concrete document with a digit-free price text. -/
theorem C9_price_default_witness :
    (∀ c ∈ "£--".data, c.isDigit = false) ∧
    ∃ r, parse_book_detail "https://books.toscrape.com/catalogue/x.html"
        { title := some "T", price_text := some "£--",
          rating_class := some ["star-rating", "Three"],
          avail_text := some "In stock", breadcrumb := ["Home"],
          img_src := some "x.jpg" } = some r ∧
      r.price = 0 :=
  ⟨by decide,
   C9_price_default "https://books.toscrape.com/catalogue/x.html" "T" "£--"
     "In stock" "x.jpg" ["star-rating", "Three"] ["Home"] (by decide)⟩

/-! ## Claims about the fetch retry loop -/

theorem get_soup_go_eq_ok (fetch : Nat → Except String α) (backoff : ℚ)
    (attempt fuel : Nat) (d : α) (hf : fetch attempt = .ok d) :
    get_soup_go fetch backoff attempt fuel = (.ok d, 1, []) := by
  cases fuel <;> simp [get_soup_go, hf]

theorem get_soup_go_eq_err_zero (fetch : Nat → Except String α) (backoff : ℚ)
    (attempt : Nat) (e : String) (hf : fetch attempt = .error e) :
    get_soup_go fetch backoff attempt 0 = (.error e, 1, []) := by
  simp [get_soup_go, hf]

theorem get_soup_go_eq_err_succ (fetch : Nat → Except String α) (backoff : ℚ)
    (attempt fuel : Nat) (e : String) (hf : fetch attempt = .error e) :
    get_soup_go fetch backoff attempt (fuel + 1) =
      ((get_soup_go fetch backoff (attempt + 1) fuel).1,
       (get_soup_go fetch backoff (attempt + 1) fuel).2.1 + 1,
       backoff * ((attempt : ℚ) + 1) :: (get_soup_go fetch backoff (attempt + 1) fuel).2.2) := by
  simp [get_soup_go, hf]

theorem get_soup_go_attempts_le (fetch : Nat → Except String α) (backoff : ℚ) :
    ∀ fuel attempt, (get_soup_go fetch backoff attempt fuel).2.1 ≤ fuel + 1 := by
  intro fuel
  induction fuel with
  | zero =>
    intro attempt
    cases hf : fetch attempt with
    | ok d => rw [get_soup_go_eq_ok fetch backoff attempt 0 d hf]
    | error e => rw [get_soup_go_eq_err_zero fetch backoff attempt e hf]
  | succ fuel' ih =>
    intro attempt
    cases hf : fetch attempt with
    | ok d =>
      rw [get_soup_go_eq_ok fetch backoff attempt (fuel' + 1) d hf]
      show 1 ≤ fuel' + 1 + 1
      omega
    | error e =>
      rw [get_soup_go_eq_err_succ fetch backoff attempt fuel' e hf]
      show (get_soup_go fetch backoff (attempt + 1) fuel').2.1 + 1 ≤ fuel' + 1 + 1
      have := ih (attempt + 1)
      omega

theorem get_soup_go_sleeps (fetch : Nat → Except String α) (backoff : ℚ) :
    ∀ fuel attempt i x,
      ((get_soup_go fetch backoff attempt fuel).2.2).get? i = some x →
      x = backoff * ((attempt : ℚ) + i + 1) := by
  intro fuel
  induction fuel with
  | zero =>
    intro attempt i x h
    cases hf : fetch attempt with
    | ok d => rw [get_soup_go_eq_ok fetch backoff attempt 0 d hf] at h; simp at h
    | error e => rw [get_soup_go_eq_err_zero fetch backoff attempt e hf] at h; simp at h
  | succ fuel' ih =>
    intro attempt i x h
    cases hf : fetch attempt with
    | ok d => rw [get_soup_go_eq_ok fetch backoff attempt (fuel' + 1) d hf] at h; simp at h
    | error e =>
      rw [get_soup_go_eq_err_succ fetch backoff attempt fuel' e hf] at h
      cases i with
      | zero =>
        simp only [List.get?_cons_zero, Option.some.injEq] at h
        rw [← h]
        push_cast
        ring
      | succ i' =>
        simp only [List.get?_cons_succ] at h
        have hrec := ih (attempt + 1) i' x h
        rw [hrec]
        push_cast
        ring

theorem get_soup_go_allfail (fetch : Nat → Except String α) (backoff : ℚ) (e : String) :
    ∀ fuel attempt,
      (∀ i, i ≤ fuel → ∃ e', fetch (attempt + i) = .error e') →
      fetch (attempt + fuel) = .error e →
      get_soup_go fetch backoff attempt fuel =
        (.error e, fuel + 1,
          (List.range fuel).map (fun i : Nat => backoff * ((attempt : ℚ) + (i : ℚ) + 1))) := by
  intro fuel
  induction fuel with
  | zero =>
    intro attempt _ hlast
    rw [Nat.add_zero] at hlast
    rw [get_soup_go_eq_err_zero fetch backoff attempt e hlast]
    rfl
  | succ fuel' ih =>
    intro attempt hall hlast
    obtain ⟨e0, he0⟩ := hall 0 (Nat.zero_le _)
    rw [Nat.add_zero] at he0
    have hall' : ∀ i, i ≤ fuel' → ∃ e', fetch (attempt + 1 + i) = .error e' := by
      intro i hi
      have := hall (i + 1) (by omega)
      rwa [show attempt + (i + 1) = attempt + 1 + i by omega] at this
    have hlast' : fetch (attempt + 1 + fuel') = .error e := by
      rwa [show attempt + 1 + fuel' = attempt + (fuel' + 1) by omega]
    have hr := ih (attempt + 1) hall' hlast'
    have hlist : (List.range (fuel' + 1)).map
          (fun i : Nat => backoff * ((attempt : ℚ) + (i : ℚ) + 1)) =
        backoff * ((attempt : ℚ) + 1) ::
          (List.range fuel').map (fun i : Nat => backoff * (((attempt + 1 : Nat) : ℚ) + (i : ℚ) + 1)) := by
      rw [List.range_succ_eq_map, List.map_cons, List.map_map]
      refine congrArg₂ _ (by push_cast; ring) (List.map_congr_left ?_)
      intro a _
      simp only [Function.comp_apply]
      push_cast
      ring
    rw [get_soup_go_eq_err_succ fetch backoff attempt fuel' e0 he0, hr, hlist]

/-- C8: `get_soup` makes at most `retries + 1` fetch attempts, sleeps
`backoff * (attempt + 1)` between attempts (linear backoff), and when
every attempt fails it returns the failure of the last attempt instead
of a document, having made exactly `retries + 1` attempts. -/
theorem C8_get_soup_retry (fetch : Nat → Except String α) (retries : Nat) (backoff : ℚ) :
    (get_soup fetch retries backoff).2.1 ≤ retries + 1 ∧
    (∀ i x, ((get_soup fetch retries backoff).2.2).get? i = some x →
      x = backoff * ((i : ℚ) + 1)) ∧
    (∀ e, (∀ i, i ≤ retries → ∃ e', fetch i = .error e') → fetch retries = .error e →
      get_soup fetch retries backoff =
        (.error e, retries + 1,
          (List.range retries).map (fun i : Nat => backoff * ((i : ℚ) + 1)))) := by
  refine ⟨get_soup_go_attempts_le fetch backoff retries 0, ?_, ?_⟩
  · intro i x h
    have := get_soup_go_sleeps fetch backoff retries 0 i x h
    rw [this]
    push_cast
    ring
  · intro e hall hlast
    have hall0 : ∀ i, i ≤ retries → ∃ e', fetch (0 + i) = .error e' := by
      simpa using hall
    have hlast0 : fetch (0 + retries) = .error e := by simpa using hlast
    have hmain := get_soup_go_allfail fetch backoff e retries 0 hall0 hlast0
    have hlist : (List.range retries).map
          (fun i : Nat => backoff * (((0 : Nat) : ℚ) + (i : ℚ) + 1)) =
        (List.range retries).map (fun i : Nat => backoff * ((i : ℚ) + 1)) := by
      refine List.map_congr_left ?_
      intro a _
      push_cast
      ring
    unfold get_soup
    rw [hmain, hlist]

/-- Witness for C8: three failing attempts with `retries = 2`,
`backoff = 1/2`. -/
theorem C8_get_soup_retry_witness :
    get_soup (fun _ => (.error "refused" : Except String Unit)) 2 (1 / 2) =
      (.error "refused", 3, (List.range 2).map (fun i : Nat => ((1 / 2 : ℚ) * ((i : ℚ) + 1)))) :=
  (C8_get_soup_retry (fun _ => (.error "refused" : Except String Unit)) 2 (1 / 2)).2.2
    "refused" (fun _ _ => ⟨"refused", rfl⟩) rfl

/-! ## Claims about the crawl driver -/

theorem foldl_preserves {α β : Type} (P : β → Prop) (f : β → α → β)
    (h : ∀ b a, P b → P (f b a)) :
    ∀ (l : List α) (b : β), P b → P (l.foldl f b) := by
  intro l
  induction l with
  | nil => intro b hb; exact hb
  | cons a l ih => intro b hb; exact ih (f b a) (h b a hb)

theorem fetch_detail_url (w : Upstream) (url : String) (b : Row)
    (h : fetch_detail w url = some b) : b.product_page_url = url := by
  unfold fetch_detail at h
  cases hd : w.detailDoc url with
  | error e => rw [hd] at h; cases h
  | ok d =>
    rw [hd] at h
    simp only [parse_book_detail, Option.bind_eq_bind, Option.bind_eq_some,
      Option.some.injEq] at h
    obtain ⟨t, ht, pt, hpt, rc, hrc, av, hav, img, himg, hb⟩ := h
    rw [← hb]

/-- Full case analysis of one per-item step, phrased through the
observable components of the state. -/
theorem procItem_cases (cfg : Config) (w : Upstream) (st : St) (url : String) :
    (url ∈ st.seen ∧ procItem cfg w st url = st) ∨
    (url ∉ st.seen ∧ fetch_detail w url = none ∧
      procItem cfg w st url =
        { st with fail := st.fail + 1
                  trace := st.trace ++ [Event.sleep cfg.polite_delay] }) ∨
    (∃ b, url ∉ st.seen ∧ fetch_detail w url = some b ∧
      (procItem cfg w st url).rows = st.rows ++ [{ b with id := st.book_id }] ∧
      (procItem cfg w st url).seen = st.seen ++ [url] ∧
      (procItem cfg w st url).book_id = st.book_id + 1 ∧
      (procItem cfg w st url).success = st.success + 1 ∧
      filtWr (procItem cfg w st url).trace =
        filtWr st.trace ++
          (if cfg.checkpoint_every ≠ 0 ∧ (st.success + 1) % cfg.checkpoint_every = 0
           then [Event.write (st.rows ++ [{ b with id := st.book_id }])] else [])) := by
  by_cases hs : url ∈ st.seen
  · exact Or.inl ⟨hs, by simp [procItem, hs]⟩
  · cases hf : fetch_detail w url with
    | none =>
      exact Or.inr (Or.inl ⟨hs, rfl, by simp [procItem, hs, hf]⟩)
    | some b =>
      refine Or.inr (Or.inr ⟨b, hs, rfl, ?_, ?_, ?_, ?_, ?_⟩)
      all_goals
        simp only [procItem, if_neg hs, hf]
        split_ifs <;>
          simp [filtWr, Event.isWrite, List.filter_append]

theorem procPage_preserves (cfg : Config) (w : Upstream) (P : St → Prop)
    (hI : ∀ st url, P st → P (procItem cfg w st url)) :
    ∀ urls st, P st → P (procPage cfg w st urls) := by
  intro urls st h
  unfold procPage
  exact foldl_preserves P (procItem cfg w) (fun b a hb => hI b a hb) urls st h

theorem procCategory_preserves (cfg : Config) (w : Upstream) (P : St → Prop)
    (hI : ∀ st url, P st → P (procItem cfg w st url))
    (hT : ∀ st, P st → P { st with trace := st.trace ++ [Event.sleep 5] }) :
    ∀ cat st, P st → P (procCategory cfg w st cat) := by
  intro cat st h
  have hfold : ∀ (pgs : List (List String)) (s : St), P s → P (pgs.foldl (procPage cfg w) s) :=
    fun pgs s hs =>
      foldl_preserves P (procPage cfg w)
        (fun b a hb => procPage_preserves cfg w P hI a b hb) pgs s hs
  simp only [procCategory]
  split
  · exact hT _ (hfold _ _ h)
  · exact hfold _ _ h

theorem procCategories_preserves (cfg : Config) (w : Upstream) (P : St → Prop)
    (hI : ∀ st url, P st → P (procItem cfg w st url))
    (hT : ∀ st, P st → P { st with trace := st.trace ++ [Event.sleep 5] }) :
    ∀ cats st, P st → P (procCategories cfg w st cats) := by
  intro cats
  induction cats with
  | nil => intro st h; exact h
  | cons c cs ih =>
    intro st h
    simp only [procCategories]
    split
    · exact procCategory_preserves cfg w P hI hT c st h
    · exact ih _ (procCategory_preserves cfg w P hI hT c st h)

theorem write_mem_filtWr (rs : List Row) (t : List Event) :
    Event.write rs ∈ t ↔ Event.write rs ∈ filtWr t := by
  unfold filtWr
  rw [List.mem_filter]
  simp [Event.isWrite]

/-- Unpacking of a successful `run` into the state after the category
loop and the final flush. -/
theorem run_ok (cfg : Config) (w : Upstream) (st : St)
    (hrun : run cfg w = .ok st) :
    ∃ cats, w.categories = .ok cats ∧
      st = { procCategories cfg w (loadResume cfg.resume_rows) cats with
             trace := (procCategories cfg w (loadResume cfg.resume_rows) cats).trace ++
               [Event.write (procCategories cfg w (loadResume cfg.resume_rows) cats).rows] } := by
  unfold run at hrun
  cases hcats : w.categories with
  | error e => rw [hcats] at hrun; cases hrun
  | ok cats =>
    rw [hcats] at hrun
    simp only [Except.ok.injEq] at hrun
    exact ⟨cats, rfl, hrun.symm⟩

/-- C2: rows never repeat a `product_page_url`: a URL in the seen set
(loaded from the resume file or added on a prior success) is never
appended again, so if the resume rows are duplicate-free so is the
final output. -/
theorem C2_dedup (cfg : Config) (w : Upstream) (st : St)
    (hnd : (cfg.resume_rows.map (fun r => r.product_page_url)).Nodup)
    (hrun : run cfg w = .ok st) :
    (st.rows.map (fun r => r.product_page_url)).Nodup := by
  obtain ⟨cats, hcats, hst⟩ := run_ok cfg w st hrun
  have hP : ∀ s : St, DedupInv s → ∀ url, DedupInv (procItem cfg w s url) := by
    intro s hs url
    unfold DedupInv at hs ⊢
    rcases procItem_cases cfg w s url with ⟨_, heq⟩ | ⟨_, _, heq⟩ |
      ⟨b, hns, hfd, hrows, hseen, _, _, _⟩
    · rw [heq]; exact hs
    · rw [heq]; exact hs
    · have hbu : ({ b with id := s.book_id } : Row).product_page_url = url :=
        fetch_detail_url w url b hfd
      constructor
      · rw [hrows, List.map_append]
        rw [List.nodup_append]
        refine ⟨hs.1, by simp, ?_⟩
        intro a ha hmem
        rw [List.map_cons, List.map_nil, hbu] at hmem
        have haurl : a = url := by simpa using hmem
        rcases List.mem_map.1 ha with ⟨r, hr, hru⟩
        apply hns
        rw [← haurl, ← hru]
        exact hs.2 r hr
      · intro r hr
        rw [hrows] at hr
        rw [hseen]
        rcases List.mem_append.1 hr with hr | hr
        · exact List.mem_append_left _ (hs.2 r hr)
        · simp only [List.mem_cons, List.not_mem_nil, or_false] at hr
          rw [hr, hbu]
          exact List.mem_append_right _ (List.mem_cons_self url [])
  have hinv := procCategories_preserves cfg w DedupInv
    (fun s url h => hP s h url)
    (fun s h => ⟨h.1, h.2⟩)
    cats (loadResume cfg.resume_rows)
    ⟨hnd, fun r hr => List.mem_map_of_mem (fun r => r.product_page_url) hr⟩
  rw [hst]
  exact hinv.1

/-- Witness for C2 on a concrete resumed run over two categories with
overlapping listings. -/
theorem C2_dedup_witness :
    ((cfgResume.resume_rows.map (fun r => r.product_page_url)).Nodup) ∧
    (stResume.rows.map (fun r => r.product_page_url)).Nodup :=
  ⟨by decide, C2_dedup cfgResume wTwoCats stResume (by decide) rfl⟩

theorem filtWr_sleep (t : List Event) (q : ℚ) :
    filtWr (t ++ [Event.sleep q]) = filtWr t := by
  simp [filtWr, List.filter_append, Event.isWrite]

theorem filtWr_write (t : List Event) (rs : List Row) :
    filtWr (t ++ [Event.write rs]) = filtWr t ++ [Event.write rs] := by
  simp [filtWr, List.filter_append, Event.isWrite]

/-- C10: with `checkpoint_every = 0` the guard
`if checkpoint_every and ...` is never taken, so the run performs no
intermediate write: the only write of the whole run is the final flush
of the full row set. -/
theorem C10_no_checkpoint_when_zero (cfg : Config) (w : Upstream) (st : St)
    (hck : cfg.checkpoint_every = 0) (hrun : run cfg w = .ok st) :
    filtWr st.trace = [Event.write st.rows] := by
  obtain ⟨cats, hcats, hst⟩ := run_ok cfg w st hrun
  have hI : ∀ s url, NoWriteInv s → NoWriteInv (procItem cfg w s url) := by
    intro s url hs
    unfold NoWriteInv at hs ⊢
    rcases procItem_cases cfg w s url with ⟨_, heq⟩ | ⟨_, _, heq⟩ |
      ⟨b, _, _, _, _, _, _, htr⟩
    · rw [heq]; exact hs
    · rw [heq]
      show filtWr (s.trace ++ [Event.sleep cfg.polite_delay]) = []
      rw [filtWr_sleep]
      exact hs
    · rw [htr, hs, if_neg (by simp [hck])]
      rfl
  have hT : ∀ s, NoWriteInv s → NoWriteInv { s with trace := s.trace ++ [Event.sleep 5] } := by
    intro s hs
    unfold NoWriteInv at hs ⊢
    show filtWr (s.trace ++ [Event.sleep 5]) = []
    rw [filtWr_sleep]
    exact hs
  have hinv : NoWriteInv (procCategories cfg w (loadResume cfg.resume_rows) cats) :=
    procCategories_preserves cfg w NoWriteInv hI hT cats (loadResume cfg.resume_rows) rfl
  rw [hst]
  show filtWr ((procCategories cfg w (loadResume cfg.resume_rows) cats).trace ++
    [Event.write (procCategories cfg w (loadResume cfg.resume_rows) cats).rows]) = _
  rw [filtWr_write, hinv]
  rfl

/-- Witness for C10: a run with `checkpoint_every = 0` writes once. -/
theorem C10_no_checkpoint_when_zero_witness :
    cfgFresh.checkpoint_every = 0 ∧ filtWr stFresh.trace = [Event.write stFresh.rows] :=
  ⟨rfl, C10_no_checkpoint_when_zero cfgFresh wTwoCats stFresh rfl rfl⟩

/-- C5: every write of the output file — each periodic checkpoint and
the final flush — is a full overwrite: a header row with exactly the
eight columns in order, then one row per in-memory record; the rows of
any checkpoint are the records accumulated so far (a prefix of the
final rows), and the last event of the run is the final flush of the
full row set. -/
theorem C5_checkpoint_consistent (cfg : Config) (w : Upstream) (st : St)
    (hrun : run cfg w = .ok st) :
    (∀ rs, Event.write rs ∈ st.trace →
      (∃ t, rs ++ t = st.rows) ∧
      (renderFile rs).head? = some fieldnames ∧
      (renderFile rs).length = rs.length + 1) ∧
    st.trace.getLast? = some (Event.write st.rows) := by
  obtain ⟨cats, hcats, hst⟩ := run_ok cfg w st hrun
  have hI : ∀ s url, WritePrefixInv s → WritePrefixInv (procItem cfg w s url) := by
    intro s url hs
    unfold WritePrefixInv at hs ⊢
    rcases procItem_cases cfg w s url with ⟨_, heq⟩ | ⟨_, _, heq⟩ |
      ⟨b, _, _, hrows, _, _, _, htr⟩
    · rw [heq]; exact hs
    · rw [heq]
      intro rs hmem
      show ∃ t, rs ++ t = s.rows
      rcases List.mem_append.1 hmem with hm | hm
      · exact hs rs hm
      · simp at hm
    · intro rs hmem
      rw [write_mem_filtWr, htr] at hmem
      rcases List.mem_append.1 hmem with hm | hm
      · obtain ⟨t, ht⟩ := hs rs ((write_mem_filtWr rs s.trace).2 hm)
        refine ⟨t ++ [{ b with id := s.book_id }], ?_⟩
        rw [hrows, ← ht, List.append_assoc]
      · by_cases hc : cfg.checkpoint_every ≠ 0 ∧ (s.success + 1) % cfg.checkpoint_every = 0
        · rw [if_pos hc] at hm
          simp only [List.mem_cons, List.not_mem_nil, or_false, Event.write.injEq] at hm
          exact ⟨[], by rw [hm, hrows, List.append_nil]⟩
        · rw [if_neg hc] at hm
          simp at hm
  have hT : ∀ s, WritePrefixInv s →
      WritePrefixInv { s with trace := s.trace ++ [Event.sleep 5] } := by
    intro s hs
    unfold WritePrefixInv at hs ⊢
    intro rs hmem
    show ∃ t, rs ++ t = s.rows
    rcases List.mem_append.1 hmem with hm | hm
    · exact hs rs hm
    · simp at hm
  have hinv : WritePrefixInv (procCategories cfg w (loadResume cfg.resume_rows) cats) :=
    procCategories_preserves cfg w WritePrefixInv hI hT cats (loadResume cfg.resume_rows)
      (fun rs hmem => absurd hmem (List.not_mem_nil _))
  constructor
  · intro rs hmem
    refine ⟨?_, rfl, by simp [renderFile, fieldnames]⟩
    rw [hst] at hmem ⊢
    rcases List.mem_append.1 hmem with hm | hm
    · exact hinv rs hm
    · simp only [List.mem_cons, List.not_mem_nil, or_false, Event.write.injEq] at hm
      exact ⟨[], by rw [hm, List.append_nil]⟩
  · rw [hst]
    exact List.getLast?_concat _

/-- Witness for C5 on a concrete run with `checkpoint_every = 1`. -/
theorem C5_checkpoint_consistent_witness :
    (∀ rs, Event.write rs ∈ stCkpt.trace →
      (∃ t, rs ++ t = stCkpt.rows) ∧
      (renderFile rs).head? = some fieldnames ∧
      (renderFile rs).length = rs.length + 1) ∧
    stCkpt.trace.getLast? = some (Event.write stCkpt.rows) :=
  C5_checkpoint_consistent cfgCkpt wTwoCats stCkpt rfl

theorem loadResume_book_id (res : List Row) :
    (loadResume res).book_id = maxId res + 1 := by
  have key : ∀ (l : List Row) (a : Nat),
      l.foldl (fun b r => max b (r.id + 1)) (a + 1) =
        l.foldl (fun m r => max m r.id) a + 1 := by
    intro l
    induction l with
    | nil => intro a; rfl
    | cons r l ih =>
      intro a
      show l.foldl (fun b r => max b (r.id + 1)) (max (a + 1) (r.id + 1)) =
        l.foldl (fun m r => max m r.id) (max a r.id) + 1
      rw [Nat.succ_max_succ]
      exact ih (max a r.id)
  show res.foldl (fun b r => max b (r.id + 1)) 1 = maxId res + 1
  exact key res 0

theorem le_maxId (res : List Row) : ∀ r ∈ res, r.id ≤ maxId res := by
  have key : ∀ (l : List Row) (a : Nat),
      a ≤ l.foldl (fun m r => max m r.id) a ∧
        ∀ r ∈ l, r.id ≤ l.foldl (fun m r => max m r.id) a := by
    intro l
    induction l with
    | nil => intro a; exact ⟨Nat.le_refl a, fun r hr => absurd hr (List.not_mem_nil r)⟩
    | cons x l ih =>
      intro a
      constructor
      · exact le_trans (Nat.le_max_left a x.id) (ih (max a x.id)).1
      · intro r hr
        rcases List.mem_cons.1 hr with hx | hr'
        · rw [hx]
          exact le_trans (Nat.le_max_right a x.id) (ih (max a x.id)).1
        · exact (ih (max a x.id)).2 r hr'
  intro r hr
  exact (key res 0).2 r hr

/-- C3: ids assigned within one run are strictly increasing in
assignment order; the first new id is `max(existing id) + 1` (1 with no
resume rows, since `maxId [] = 0`); every new id exceeds every resume
id, so no id is reused. -/
theorem C3_id_monotonic (cfg : Config) (w : Upstream) (st : St)
    (hrun : run cfg w = .ok st) :
    ∃ new, st.rows = cfg.resume_rows ++ new ∧
      (new.map (fun r => r.id)).Pairwise (fun a b => a < b) ∧
      (∀ r, new.head? = some r → r.id = maxId cfg.resume_rows + 1) ∧
      (∀ r1 ∈ cfg.resume_rows, ∀ r2 ∈ new, r1.id < r2.id) := by
  obtain ⟨cats, hcats, hst⟩ := run_ok cfg w st hrun
  have hb0 : (loadResume cfg.resume_rows).book_id = maxId cfg.resume_rows + 1 :=
    loadResume_book_id cfg.resume_rows
  have hI : ∀ s url, IdInv cfg.resume_rows (maxId cfg.resume_rows + 1) s →
      IdInv cfg.resume_rows (maxId cfg.resume_rows + 1) (procItem cfg w s url) := by
    intro s url hs
    obtain ⟨new, hr, hmap, hbid⟩ := hs
    rcases procItem_cases cfg w s url with ⟨_, heq⟩ | ⟨_, _, heq⟩ |
      ⟨b, _, _, hrows, _, hbid', _, _⟩
    · rw [heq]; exact ⟨new, hr, hmap, hbid⟩
    · rw [heq]; exact ⟨new, hr, hmap, hbid⟩
    · refine ⟨new ++ [{ b with id := s.book_id }], ?_, ?_, ?_⟩
      · rw [hrows, hr, List.append_assoc]
      · rw [List.map_append, hmap, List.length_append]
        show List.range' (maxId cfg.resume_rows + 1) new.length ++ [s.book_id] =
          List.range' (maxId cfg.resume_rows + 1) (new.length + 1)
        have hcat : List.range' (maxId cfg.resume_rows + 1) (new.length + 1) =
            List.range' (maxId cfg.resume_rows + 1) new.length ++
              [maxId cfg.resume_rows + 1 + 1 * new.length] :=
          List.range'_concat _ _
        rw [hbid, hcat]
        simp
      · rw [hbid', hbid, List.length_append]
        simp
        omega
  have hinv : IdInv cfg.resume_rows (maxId cfg.resume_rows + 1)
      (procCategories cfg w (loadResume cfg.resume_rows) cats) :=
    procCategories_preserves cfg w (IdInv cfg.resume_rows (maxId cfg.resume_rows + 1))
      hI (fun s h => h) cats (loadResume cfg.resume_rows)
      ⟨[], by simp [loadResume], by simp, by simp [hb0]⟩
  obtain ⟨new, hr, hmap, _⟩ := hinv
  refine ⟨new, by rw [hst]; exact hr, ?_, ?_, ?_⟩
  · rw [hmap]
    exact List.pairwise_lt_range' _ _
  · intro r hhead
    cases new with
    | nil => cases hhead
    | cons n ns =>
      simp only [List.head?_cons, Option.some.injEq] at hhead
      rw [← hhead]
      have : (n :: ns).map (fun r => r.id) = List.range' (maxId cfg.resume_rows + 1)
          (ns.length + 1) := by simpa using hmap
      rw [List.range'_succ] at this
      simp only [List.map_cons, List.cons.injEq] at this
      exact this.1
  · intro r1 h1 r2 h2
    have hmem : r2.id ∈ List.range' (maxId cfg.resume_rows + 1) new.length := by
      rw [← hmap]
      exact List.mem_map_of_mem (fun r => r.id) h2
    rw [List.mem_range'_1] at hmem
    have := le_maxId cfg.resume_rows r1 h1
    omega

/-- Witness for C3 on a concrete resumed run: resume row has id 3, new
rows get ids 4, 5. -/
theorem C3_id_monotonic_witness :
    ∃ new, stResume.rows = cfgResume.resume_rows ++ new ∧
      (new.map (fun r => r.id)).Pairwise (fun a b => a < b) ∧
      (∀ r, new.head? = some r → r.id = maxId cfgResume.resume_rows + 1) ∧
      (∀ r1 ∈ cfgResume.resume_rows, ∀ r2 ∈ new, r1.id < r2.id) :=
  C3_id_monotonic cfgResume wTwoCats stResume rfl

/-- C4: an item-level fetch/parse failure only increments the failure
counter (state otherwise unchanged, a politeness sleep follows) and the
loop moves to the next item; a failing category contributes exactly the
pages it reached plus a 5-second pause, after which the remaining
categories are still processed; only a category-index failure aborts the
run, and with a good index the run always returns a final state. -/
theorem C4_failure_isolation (cfg : Config) (w : Upstream) :
    (∀ st url, url ∉ st.seen → fetch_detail w url = none →
      procItem cfg w st url =
        { st with fail := st.fail + 1
                  trace := st.trace ++ [Event.sleep cfg.polite_delay] }) ∧
    (∀ st name curl pages e, w.catPages curl = (pages, some e) →
      procCategory cfg w st (name, curl) =
        { pages.foldl (procPage cfg w) st with
          trace := (pages.foldl (procPage cfg w) st).trace ++ [Event.sleep 5] }) ∧
    (∀ st c cs, limitReached cfg.limit (procCategory cfg w st c).success = false →
      procCategories cfg w st (c :: cs) =
        procCategories cfg w (procCategory cfg w st c) cs) ∧
    (∀ e, w.categories = .error e → run cfg w = .error e) ∧
    (∀ cats, w.categories = .ok cats → ∃ st, run cfg w = .ok st) := by
  refine ⟨?_, ?_, ?_, ?_, ?_⟩
  · intro st url hs hf
    simp [procItem, hs, hf]
  · intro st name curl pages e hcp
    simp only [procCategory, hcp]
  · intro st c cs hlim
    simp only [procCategories]
    rw [if_neg (by simp [hlim])]
  · intro e he
    unfold run
    rw [he]
  · intro cats hc
    have hv : run cfg w =
        .ok { procCategories cfg w (loadResume cfg.resume_rows) cats with
              trace := (procCategories cfg w (loadResume cfg.resume_rows) cats).trace ++
                [Event.write (procCategories cfg w (loadResume cfg.resume_rows) cats).rows] } := by
      unfold run
      rw [hc]
    exact ⟨_, hv⟩

/-- Witness for C4 at concrete inputs: an unreachable detail page, a
category that fails before its first listing page, a failed index, and
a healthy index. -/
theorem C4_failure_isolation_witness :
    (procItem cfgFresh wFail (loadResume []) "u1" =
      { loadResume [] with
        fail := (loadResume []).fail + 1
        trace := (loadResume []).trace ++ [Event.sleep cfgFresh.polite_delay] }) ∧
    (procCategory cfgFresh wFail (loadResume []) ("B", "catB") =
      { ([] : List (List String)).foldl (procPage cfgFresh wFail) (loadResume []) with
        trace := (([] : List (List String)).foldl (procPage cfgFresh wFail)
          (loadResume [])).trace ++ [Event.sleep 5] }) ∧
    (procCategories cfgFresh wFail (loadResume []) [("B", "catB")] =
      procCategories cfgFresh wFail
        (procCategory cfgFresh wFail (loadResume []) ("B", "catB")) []) ∧
    (run cfgFresh wFail = .error "conn refused") ∧
    (∃ st, run cfgFresh wTwoCats = .ok st) := by
  refine ⟨?_, ?_, ?_, ?_, ?_⟩
  · exact (C4_failure_isolation cfgFresh wFail).1 (loadResume []) "u1"
      (by simp [loadResume]) rfl
  · exact (C4_failure_isolation cfgFresh wFail).2.1 (loadResume []) "B" "catB" []
      "conn refused" rfl
  · exact (C4_failure_isolation cfgFresh wFail).2.2.1 (loadResume []) ("B", "catB") [] rfl
  · exact (C4_failure_isolation cfgFresh wFail).2.2.2.1 "conn refused" rfl
  · exact (C4_failure_isolation cfgFresh wTwoCats).2.2.2.2 [("A", "catA"), ("B", "catB")] rfl

theorem seen_mono_procItem (cfg : Config) (w : Upstream) (st : St) (url x : String)
    (hx : x ∈ st.seen) : x ∈ (procItem cfg w st url).seen := by
  rcases procItem_cases cfg w st url with ⟨_, heq⟩ | ⟨_, _, heq⟩ |
    ⟨b, _, _, _, hseen, _, _, _⟩
  · rw [heq]; exact hx
  · rw [heq]; exact hx
  · rw [hseen]; exact List.mem_append_left _ hx

theorem seen_mono_procPage (cfg : Config) (w : Upstream) (urls : List String)
    (st : St) (x : String) (hx : x ∈ st.seen) : x ∈ (procPage cfg w st urls).seen :=
  procPage_preserves cfg w (fun s => x ∈ s.seen)
    (fun s url h => seen_mono_procItem cfg w s url x h) urls st hx

theorem seen_mono_pages (cfg : Config) (w : Upstream) (pgs : List (List String))
    (st : St) (x : String) (hx : x ∈ st.seen) :
    x ∈ (pgs.foldl (procPage cfg w) st).seen :=
  foldl_preserves (fun s => x ∈ s.seen) (procPage cfg w)
    (fun b a hb => seen_mono_procPage cfg w a b x hb) pgs st hx

theorem seen_mono_procCategories (cfg : Config) (w : Upstream)
    (cats : List (String × String)) (st : St) (x : String) (hx : x ∈ st.seen) :
    x ∈ (procCategories cfg w st cats).seen :=
  procCategories_preserves cfg w (fun s => x ∈ s.seen)
    (fun s url h => seen_mono_procItem cfg w s url x h)
    (fun s h => h) cats st hx

theorem cover_page (cfg : Config) (w : Upstream) :
    ∀ (urls : List String) (st : St) (u : String), u ∈ urls → okUrl w u →
      u ∈ (procPage cfg w st urls).seen := by
  intro urls
  induction urls with
  | nil => intro st u hu _; cases hu
  | cons a l ih =>
    intro st u hu hok
    have hstep : procPage cfg w st (a :: l) = procPage cfg w (procItem cfg w st a) l := rfl
    rw [hstep]
    rcases List.mem_cons.1 hu with hx | hu'
    · subst hx
      refine seen_mono_procPage cfg w l _ u ?_
      rcases procItem_cases cfg w st u with ⟨hin, heq⟩ | ⟨_, hno, _⟩ |
        ⟨b, _, _, _, hseen, _, _, _⟩
      · rw [heq]; exact hin
      · obtain ⟨b, hb⟩ := hok
        rw [hno] at hb
        cases hb
      · rw [hseen]
        exact List.mem_append_right _ (List.mem_cons_self u [])
    · exact ih (procItem cfg w st a) u hu' hok

theorem cover_pages (cfg : Config) (w : Upstream) :
    ∀ (pgs : List (List String)) (st : St) (pg : List String) (u : String),
      pg ∈ pgs → u ∈ pg → okUrl w u →
      u ∈ (pgs.foldl (procPage cfg w) st).seen := by
  intro pgs
  induction pgs with
  | nil => intro st pg u hpg; cases hpg
  | cons p ps ih =>
    intro st pg u hpg hu hok
    have hstep : (p :: ps).foldl (procPage cfg w) st =
        ps.foldl (procPage cfg w) (procPage cfg w st p) := rfl
    rw [hstep]
    rcases List.mem_cons.1 hpg with hx | hpg'
    · subst hx
      exact seen_mono_pages cfg w ps _ u (cover_page cfg w pg st u hu hok)
    · exact ih _ pg u hpg' hu hok

theorem cover_category (cfg : Config) (w : Upstream) (cat : String × String)
    (st : St) (pg : List String) (u : String)
    (hpg : pg ∈ (w.catPages cat.2).1) (hu : u ∈ pg) (hok : okUrl w u) :
    u ∈ (procCategory cfg w st cat).seen := by
  simp only [procCategory]
  split
  · exact cover_pages cfg w (w.catPages cat.2).1 st pg u hpg hu hok
  · exact cover_pages cfg w (w.catPages cat.2).1 st pg u hpg hu hok

theorem cover_categories (cfg : Config) (w : Upstream) (hl : cfg.limit = none) :
    ∀ (cats : List (String × String)) (st : St) (c : String × String)
      (pg : List String) (u : String),
      c ∈ cats → pg ∈ (w.catPages c.2).1 → u ∈ pg → okUrl w u →
      u ∈ (procCategories cfg w st cats).seen := by
  intro cats
  induction cats with
  | nil => intro st c pg u hc; cases hc
  | cons c0 cs ih =>
    intro st c pg u hc hpg hu hok
    simp only [procCategories]
    rw [if_neg (by rw [hl]; simp [limitReached])]
    rcases List.mem_cons.1 hc with hx | hc'
    · subst hx
      exact seen_mono_procCategories cfg w cs _ u
        (cover_category cfg w c st pg u hpg hu hok)
    · exact ih _ c pg u hc' hpg hu hok

theorem seenEq_procItem (cfg : Config) (w : Upstream) (st : St) (url : String)
    (hs : SeenEqInv st) : SeenEqInv (procItem cfg w st url) := by
  unfold SeenEqInv at hs ⊢
  rcases procItem_cases cfg w st url with ⟨_, heq⟩ | ⟨_, _, heq⟩ |
    ⟨b, _, hfd, hrows, hseen, _, _, _⟩
  · rw [heq]; exact hs
  · rw [heq]; exact hs
  · have hbu : ({ b with id := st.book_id } : Row).product_page_url = url :=
      fetch_detail_url w url b hfd
    rw [hseen, hrows, List.map_append, hs]
    simp only [List.map_cons, List.map_nil]
    rw [hbu]

theorem noadd_procItem (cfg : Config) (w : Upstream) (st : St) (url : String)
    (h : okUrl w url → url ∈ st.seen) :
    (procItem cfg w st url).rows = st.rows ∧ (procItem cfg w st url).seen = st.seen := by
  rcases procItem_cases cfg w st url with ⟨_, heq⟩ | ⟨_, _, heq⟩ |
    ⟨b, hns, hfd, _, _, _, _, _⟩
  · rw [heq]; exact ⟨rfl, rfl⟩
  · rw [heq]; exact ⟨rfl, rfl⟩
  · exact absurd (h ⟨b, hfd⟩) hns

theorem noadd_procPage (cfg : Config) (w : Upstream) :
    ∀ (urls : List String) (st : St), (∀ u ∈ urls, okUrl w u → u ∈ st.seen) →
      (procPage cfg w st urls).rows = st.rows ∧ (procPage cfg w st urls).seen = st.seen := by
  intro urls
  induction urls with
  | nil => intro st _; exact ⟨rfl, rfl⟩
  | cons a l ih =>
    intro st h
    have h0 := noadd_procItem cfg w st a (h a (List.mem_cons_self a l))
    have hrest := ih (procItem cfg w st a) (fun u hu hok => by
      rw [h0.2]; exact h u (List.mem_cons_of_mem a hu) hok)
    have hstep : procPage cfg w st (a :: l) = procPage cfg w (procItem cfg w st a) l := rfl
    rw [hstep]
    exact ⟨by rw [hrest.1, h0.1], by rw [hrest.2, h0.2]⟩

theorem noadd_pages (cfg : Config) (w : Upstream) :
    ∀ (pgs : List (List String)) (st : St),
      (∀ pg ∈ pgs, ∀ u ∈ pg, okUrl w u → u ∈ st.seen) →
      (pgs.foldl (procPage cfg w) st).rows = st.rows ∧
        (pgs.foldl (procPage cfg w) st).seen = st.seen := by
  intro pgs
  induction pgs with
  | nil => intro st _; exact ⟨rfl, rfl⟩
  | cons p ps ih =>
    intro st h
    have h0 := noadd_procPage cfg w p st (h p (List.mem_cons_self p ps))
    have hrest := ih (procPage cfg w st p) (fun pg hpg u hu hok => by
      rw [h0.2]; exact h pg (List.mem_cons_of_mem p hpg) u hu hok)
    have hstep : (p :: ps).foldl (procPage cfg w) st =
        ps.foldl (procPage cfg w) (procPage cfg w st p) := rfl
    rw [hstep]
    exact ⟨by rw [hrest.1, h0.1], by rw [hrest.2, h0.2]⟩

theorem noadd_procCategory (cfg : Config) (w : Upstream) (cat : String × String) (st : St)
    (h : ∀ pg ∈ (w.catPages cat.2).1, ∀ u ∈ pg, okUrl w u → u ∈ st.seen) :
    (procCategory cfg w st cat).rows = st.rows ∧
      (procCategory cfg w st cat).seen = st.seen := by
  have h0 := noadd_pages cfg w (w.catPages cat.2).1 st h
  simp only [procCategory]
  split
  · exact ⟨h0.1, h0.2⟩
  · exact h0

theorem noadd_procCategories (cfg : Config) (w : Upstream) :
    ∀ (cats : List (String × String)) (st : St),
      (∀ c ∈ cats, ∀ pg ∈ (w.catPages c.2).1, ∀ u ∈ pg, okUrl w u → u ∈ st.seen) →
      (procCategories cfg w st cats).rows = st.rows := by
  intro cats
  induction cats with
  | nil => intro st _; rfl
  | cons c0 cs ih =>
    intro st h
    have h0 := noadd_procCategory cfg w c0 st (h c0 (List.mem_cons_self c0 cs))
    simp only [procCategories]
    split
    · exact h0.1
    · rw [ih (procCategory cfg w st c0) (fun c hc pg hpg u hu hok => by
        rw [h0.2]; exact h c (List.mem_cons_of_mem c0 hc) pg hpg u hu hok), h0.1]

/-- C7: running to completion (no limit, fresh start) and then running
again with the output as resume state over the same upstream adds no
rows: the second run's final rows equal the first run's, ids included. -/
theorem C7_resume_idempotent (cfg : Config) (w : Upstream) (st1 : St)
    (hl : cfg.limit = none) (hres : cfg.resume_rows = [])
    (hrun : run cfg w = .ok st1) :
    ∃ st2, run { cfg with resume_rows := st1.rows } w = .ok st2 ∧ st2.rows = st1.rows := by
  obtain ⟨cats, hcats, hst⟩ := run_ok cfg w st1 hrun
  have hseq : SeenEqInv (procCategories cfg w (loadResume cfg.resume_rows) cats) :=
    procCategories_preserves cfg w SeenEqInv
      (fun s url h => seenEq_procItem cfg w s url h)
      (fun s h => h) cats (loadResume cfg.resume_rows) rfl
  have hseq' : (procCategories cfg w (loadResume cfg.resume_rows) cats).seen =
      (procCategories cfg w (loadResume cfg.resume_rows) cats).rows.map
        (fun r => r.product_page_url) := hseq
  have hrows1 : st1.rows = (procCategories cfg w (loadResume cfg.resume_rows) cats).rows := by
    rw [hst]
  have hcover : ∀ c ∈ cats, ∀ pg ∈ (w.catPages c.2).1, ∀ u ∈ pg, okUrl w u →
      u ∈ (loadResume st1.rows).seen := by
    intro c hc pg hpg u hu hok
    have h1 : u ∈ (procCategories cfg w (loadResume cfg.resume_rows) cats).seen :=
      cover_categories cfg w hl cats (loadResume cfg.resume_rows) c pg u hc hpg hu hok
    show u ∈ st1.rows.map (fun r => r.product_page_url)
    rw [hrows1, ← hseq']
    exact h1
  have hnoadd : (procCategories { cfg with resume_rows := st1.rows } w
      (loadResume st1.rows) cats).rows = (loadResume st1.rows).rows :=
    noadd_procCategories { cfg with resume_rows := st1.rows } w cats
      (loadResume st1.rows) hcover
  have hrun2 : run { cfg with resume_rows := st1.rows } w =
      .ok { procCategories { cfg with resume_rows := st1.rows } w
              (loadResume st1.rows) cats with
            trace := (procCategories { cfg with resume_rows := st1.rows } w
                (loadResume st1.rows) cats).trace ++
              [Event.write (procCategories { cfg with resume_rows := st1.rows } w
                (loadResume st1.rows) cats).rows] } := by
    unfold run
    rw [hcats]
  refine ⟨_, hrun2, ?_⟩
  show (procCategories { cfg with resume_rows := st1.rows } w
      (loadResume st1.rows) cats).rows = st1.rows
  rw [hnoadd]
  rfl

/-- Witness for C7: rerunning the two-category fixture with its own
output as resume state adds nothing. -/
theorem C7_resume_idempotent_witness :
    ∃ st2, run { cfgFresh with resume_rows := stFresh.rows } wTwoCats = .ok st2 ∧
      st2.rows = stFresh.rows :=
  C7_resume_idempotent cfgFresh wTwoCats stFresh rfl rfl rfl

/-- C1 (refuted — code bug): with `limit = 1` over a single category
whose one listing page holds two parseable products, the run returns 2
rows, 2 successes and 2 counted failures instead of the claimed
`min(1, 2) = 1` rows: the `raise StopIteration` at the limit check sits
inside the per-item `try` whose handler is `except Exception`, and
`StopIteration` subclasses `Exception`, so the limit signal is caught as
an item failure and pagination of the current category never stops. -/
theorem C1_limit_overshoot :
    (run cfgLimit wLimit).map (fun st => (st.rows.length, st.success, st.fail)) =
      .ok (2, 2, 2) := rfl

end Scrape
